import Mathlib

/-!
Shallow embedding of the checkonaut check/test evaluation engine.

The embedding follows the Rust sources of the repository:
`src/check.rs` (the `check` command: interpreter setup, document loading,
per-check evaluation, the `CheckResult` grammar, decoding and flattening),
`src/lua.rs` (the `SourceCode` helpers: `load_into`, the `checkonaut`
capability module), `src/file.rs` (`FileTy::derive_from_byte_name`) and
`src/test.rs` (the `test` command: test-function discovery and outcome
recording, aggregation).

Embedded Lua values are modelled by the inductive `LuaValue`; a Lua
interpreter is modelled by its table of global bindings (`GlobalEnv`).
A user-supplied Lua script is an external input to the program, so a
script is modelled by the effect it can have at its two interaction
points with the host: the effect of executing its body on the globals,
and the behaviour of the entry function the host retrieves and calls.
Host-side file reads and the external serde parsers are likewise
modelled by their outcomes, supplied as inputs.
-/

/-- A Lua dynamic value as seen across the mlua boundary.  `table` keeps the
string-keyed entries and the integer-keyed sequence part separately, which is
how the source accesses tables (`get`/`contains_key` on string keys,
`sequence_values` for the sequence part).  `fnRef` stands for a function
value, `other` for the remaining value kinds (booleans, numbers, userdata). -/
inductive LuaValue where
  | nil
  | str (s : String)
  | table (entries : List (String × LuaValue)) (seq : List LuaValue)
  | fnRef (id : String)
  | other (tyName : String)

/-- The global bindings of one Lua interpreter instance. -/
abbrev GlobalEnv := List (String × LuaValue)

/-- Setting a global: replace the binding if the key exists, append otherwise. -/
def setGlobal : GlobalEnv → String → LuaValue → GlobalEnv
  | [], k, v => [(k, v)]
  | (k', v') :: rest, k, v =>
      if k' == k then (k, v) :: rest else (k', v') :: setGlobal rest k v

/-- Reading a global; a missing key reads as nil, as in Lua. -/
def getGlobal (env : GlobalEnv) (k : String) : LuaValue :=
  match env.find? (fun p => p.1 == k) with
  | some p => p.2
  | none => .nil

/-- Whether a Lua value is nil. -/
def isNilV : LuaValue → Bool
  | .nil => true
  | _ => false

/-- `CheckSeverity` from `src/check.rs`. -/
inductive CheckSeverity where
  | Error
  | Warning
deriving DecidableEq, Repr

/-- `CheckError` from `src/check.rs`: one flattened finding. -/
structure CheckError where
  severity : CheckSeverity
  error : String
deriving DecidableEq, Repr

/-- `CheckResult` from `src/check.rs`: the tagged-variant grammar for the
value returned by a `Check` entry function. -/
inductive CheckResult where
  | Nil
  | Error (severity : Option CheckSeverity) (error : String)
  | Many (severity : Option CheckSeverity) (results : List CheckResult)

mutual

/-- `CheckResult::flatten_internal` from `src/check.rs`: the accumulator is
threaded exactly as the source threads its `&mut Vec` argument. -/
def flattenInternal : CheckResult → List CheckError → CheckSeverity → List CheckError
  | .Nil, acc, _ => acc
  | .Error sev e, acc, inherited => acc ++ [⟨sev.getD inherited, e⟩]
  | .Many sev results, acc, inherited => flattenList results acc (sev.getD inherited)

/-- The `for result in results` loop inside `flatten_internal`. -/
def flattenList : List CheckResult → List CheckError → CheckSeverity → List CheckError
  | [], acc, _ => acc
  | r :: rs, acc, sev => flattenList rs (flattenInternal r acc sev) sev

end

/-- `CheckResult::flatten` from `src/check.rs`: flattening starts from an
empty accumulator and the inherited severity `Error`. -/
def CheckResult.flatten (r : CheckResult) : List CheckError :=
  flattenInternal r [] .Error

/-- Conversion of a Lua string-like value with Rust type `String`, as done by
`table.get::<String>("message")`: only an actual Lua string converts. -/
def luaCoerceString : LuaValue → Except String String
  | .str s => .ok s
  | _ => .error "error converting Lua value to String"

/-- Reading a string-keyed table field; a missing field reads as nil. -/
def luaGetField (entries : List (String × LuaValue)) (k : String) : LuaValue :=
  match entries.find? (fun p => p.1 == k) with
  | some p => p.2
  | none => .nil

/-- The severity token parser inside `CheckResult::from_lua`:
`table.get::<Option<String>>("severity")` followed by the token match. -/
def decodeSeverityField (entries : List (String × LuaValue)) :
    Except String (Option CheckSeverity) :=
  match luaGetField entries "severity" with
  | .nil => .ok none
  | .str s =>
      if s == "error" then .ok (some .Error)
      else if s == "warning" then .ok (some .Warning)
      else .error ("invalid severity level: " ++ s)
  | _ => .error "error converting severity to Option String"

mutual

/-- `CheckResult::from_lua` from `src/check.rs`: decoding of the value a
`Check` entry function returned.  The branch for a table without a `message`
key builds `Many` with `severity := none`, exactly as the source does. -/
def fromLua : LuaValue → Except String CheckResult
  | .nil => .ok .Nil
  | .str s => .ok (.Error none s)
  | .table entries seq =>
      if isNilV (luaGetField entries "message") then
        match fromLuaSeq seq with
        | .error e => .error e
        | .ok results => .ok (.Many none results)
      else
        match decodeSeverityField entries with
        | .error e => .error e
        | .ok severity =>
            match luaCoerceString (luaGetField entries "message") with
            | .error e => .error e
            | .ok error => .ok (.Error severity error)
  | .fnRef _ => .error "expected string or table"
  | .other _ => .error "expected string or table"

/-- The `for pair in table.sequence_values()` loop inside
`CheckResult::from_lua`, with its inline arms for nil and string elements. -/
def fromLuaSeq : List LuaValue → Except String (List CheckResult)
  | [] => .ok []
  | v :: rest =>
      let head : Except String CheckResult :=
        match v with
        | .nil => .ok .Nil
        | .str s => .ok (.Error none s)
        | otherwise => fromLua otherwise
      match head with
      | .error e => .error e
      | .ok h =>
          match fromLuaSeq rest with
          | .error e => .error e
          | .ok t => .ok (h :: t)

end

mutual

/-- The severity-resolution rule as the specification words it: a result is
flattened under the resolved severity of the nearest enclosing group that has
a set severity (`nearest`), and with no enclosing set severity the default is
`Error`.  Written from the specification text for comparison with the
source-derived `flattenInternal`. -/
def specFlatten (nearest : Option CheckSeverity) : CheckResult → List CheckError
  | .Nil => []
  | .Error own msg => [⟨(own.orElse (fun _ => nearest)).getD .Error, msg⟩]
  | .Many own rs => specFlattenList (own.orElse (fun _ => nearest)) rs

/-- Sibling lists under `specFlatten`: children are flattened in order and
concatenated. -/
def specFlattenList (nearest : Option CheckSeverity) : List CheckResult → List CheckError
  | [] => []
  | r :: rs => specFlatten nearest r ++ specFlattenList nearest rs

end

mutual

/-- The in-order list of leaf messages of a result tree. -/
def leafMessages : CheckResult → List String
  | .Nil => []
  | .Error _ msg => [msg]
  | .Many _ rs => leafMessagesList rs

/-- In-order leaf messages of a sibling list. -/
def leafMessagesList : List CheckResult → List String
  | [] => []
  | r :: rs => leafMessages r ++ leafMessagesList rs

end

/-- One check script as the host sees it (cf. `perform_check` in
`src/check.rs`): `load` is the effect of executing the script body on the
interpreter globals, `call` the behaviour of the `Check` entry function the
host retrieves after loading — it receives the current globals and the
argument list of the call, and produces the updated globals and the return
value.  Reading the script file and executing its body are modelled as
always succeeding; load and call failures are not needed by any claim. -/
structure CheckScript where
  path : String
  load : GlobalEnv → GlobalEnv
  call : GlobalEnv → List LuaValue → GlobalEnv × LuaValue

/-- The `for doc in documents` loop of `perform_check` in `src/check.rs`:
each document is passed as the single argument of the call
(`check_function.call(doc)`), the returned value is decoded and flattened,
and the findings are accumulated.  `argsTrace` records, as ghost output, the
argument list of every call made. -/
def performCheckGo (check : CheckScript) (env : GlobalEnv) (docs : List LuaValue)
    (errors : List CheckError) (argsTrace : List (List LuaValue)) :
    Except String (GlobalEnv × List CheckError × List (List LuaValue)) :=
  match docs with
  | [] => .ok (env, errors, argsTrace)
  | doc :: rest =>
      let called := check.call env [doc]
      match fromLua called.2 with
      | .error e => .error ("failed to execute Check function: " ++ e)
      | .ok res => performCheckGo check called.1 rest (errors ++ res.flatten) (argsTrace ++ [[doc]])

/-- `perform_check` from `src/check.rs`: it receives a clone of the data
file's interpreter handle (the same underlying interpreter), executes the
check script body in it, then calls the `Check` function once per document. -/
def performCheck (env : GlobalEnv) (documents : List LuaValue) (check : CheckScript) :
    Except String (GlobalEnv × List CheckError × List (List LuaValue)) :=
  performCheckGo check (check.load env) documents [] []

/-- The `for check in checks` loop at the end of `check_file` in
`src/check.rs`: every iteration passes `lua.clone()` — a handle to the same
interpreter — so the globals coming out of one check's evaluation are the
globals the next check is loaded into.  A check contributing no finding is
omitted from the result list. -/
def runChecks (env : GlobalEnv) (documents : List LuaValue) :
    List CheckScript → Except String (List (String × List CheckError))
  | [] => .ok []
  | c :: rest =>
      match performCheck env documents c with
      | .error e => .error e
      | .ok out =>
          match runChecks out.1 documents rest with
          | .error e => .error e
          | .ok results =>
              .ok (if out.2.1.isEmpty then results else (c.path, out.2.1) :: results)

/-- The interpreter constructed at the top of `check_file` in `src/check.rs`:
`Lua::new()` (whose initial `package.path` is `defaultPath`), the
`_CHECK_FILE` and `_CHECK_DIR` globals set to the data file's path and parent
directory, and the executed chunk that appends the data file's directory to
`package.path`. -/
def checkFileInitEnv (defaultPath dataPath parentDir : String) : GlobalEnv :=
  let env : GlobalEnv := [("package.path", LuaValue.str defaultPath)]
  let env := setGlobal env "_CHECK_FILE" (.str dataPath)
  let env := setGlobal env "_CHECK_DIR" (.str parentDir)
  setGlobal env "package.path"
    (.str (defaultPath ++ ";" ++ parentDir ++ "/?.lua;" ++ parentDir ++ "/?/init.lua"))

/-- `str::eq_ignore_ascii_case`, on names modelled as character lists. -/
def eqIgnoreAsciiCase (a b : List Char) : Bool :=
  a.map Char.toLower == b.map Char.toLower

/-- The outcomes of the external parsers on one data file's bytes:
`serde_json::from_slice`, `toml::from_slice`, and the entries the streaming
YAML deserializer yields in order (each entry either a parsed document or a
parse error). -/
structure RawParseOutcomes where
  json : Except String LuaValue
  toml : Except String LuaValue
  yaml : List (Except String LuaValue)

/-- The `while let Some(de) = deserializer.next()` loop in `check_file`: each
YAML stream entry is parsed in order and pushed; the first parse error aborts
the whole file with no partial list. -/
def loadYamlStream : List (Except String LuaValue) → Except String (List LuaValue)
  | [] => .ok []
  | .error e :: _ => .error ("failed to parse YAML document: " ++ e)
  | .ok v :: rest =>
      match loadYamlStream rest with
      | .error e => .error e
      | .ok vs => .ok (v :: vs)

/-- The `documents` block of `check_file` in `src/check.rs`: dispatch on the
data file's extension (compared ASCII-case-insensitively), with JSON and TOML
producing exactly one document, YAML one per stream entry, and any other
extension failing. -/
def loadDocuments (ext : Option (List Char)) (p : RawParseOutcomes) :
    Except String (List LuaValue) :=
  if ext.elim false (fun s => eqIgnoreAsciiCase s "json".toList) then
    match p.json with
    | .error e => .error ("failed to parse JSON: " ++ e)
    | .ok v => .ok [v]
  else if ext.elim false (fun s => eqIgnoreAsciiCase s "toml".toList) then
    match p.toml with
    | .error e => .error ("failed to parse TOML: " ++ e)
    | .ok v => .ok [v]
  else if ext.elim false (fun s =>
      eqIgnoreAsciiCase s "yml".toList || eqIgnoreAsciiCase s "yaml".toList) then
    loadYamlStream p.yaml
  else
    .error "unrecognised file extension"

/-- One data file as `check_file` consumes it: its path and parent directory
(both assumed valid UTF-8), its extension, and the external parsers'
outcomes on its bytes. -/
structure DataFileInput where
  path : String
  parent : String
  ext : Option (List Char)
  raw : RawParseOutcomes

/-- `check_file` from `src/check.rs` for one data file: build the fresh
interpreter, load the documents, then run every check in that interpreter. -/
def checkFileFull (defaultPath : String) (d : DataFileInput) (checks : List CheckScript) :
    Except String (List (String × List CheckError)) :=
  match loadDocuments d.ext d.raw with
  | .error e => .error e
  | .ok docs => runChecks (checkFileInitEnv defaultPath d.path d.parent) docs checks

/-- The `data_files.into_par_iter().map(check_file).collect::<Result<_>>()`
step of `Check::run`: each data file is evaluated by `check_file` — which
constructs its own interpreter — and the first error aborts the collection. -/
def evalDataFiles (defaultPath : String) (checks : List CheckScript) :
    List DataFileInput → Except String (List (String × List (String × List CheckError)))
  | [] => .ok []
  | d :: rest =>
      match checkFileFull defaultPath d checks with
      | .error e => .error e
      | .ok res =>
          match evalDataFiles defaultPath checks rest with
          | .error e => .error e
          | .ok rs => .ok ((d.path, res) :: rs)

/-- The body of `Check::run` in `src/check.rs` after file classification: the
two `ensure!` gates on empty check and data sets, the per-data-file
evaluation, and the `found_error` pass that fails the run exactly when some
finding has severity `Error`.  (The source also sorts the results by data
file path before logging; the success flag does not depend on that order.) -/
def checkRunTop (defaultPath : String) (checks : List CheckScript)
    (dataFiles : List DataFileInput) : Except String Unit :=
  if checks.isEmpty then .error "no check files found to run"
  else if dataFiles.isEmpty then .error "no data files found to check"
  else
    match evalDataFiles defaultPath checks dataFiles with
    | .error e => .error e
    | .ok results =>
        if results.any (fun r => r.2.any (fun c => c.2.any (fun e => e.severity == .Error))) then
          .error "one or more errors were found during checks"
        else .ok ()

/-- The global key under which `lua.register_module("@checkonaut", module)`
in `src/lua.rs` makes the capability module reachable (mlua stores registered
modules in `package.loaded`). -/
def checkonautModuleKey : String := "package.loaded.@checkonaut"

/-- The capability module table built by `SourceCode::checkonaut_module` in
`src/lua.rs`: exactly the two host functions `ReadJSON` and `Matches`. -/
def checkonautModule : LuaValue :=
  .table [("ReadJSON", .fnRef "ReadJSON"), ("Matches", .fnRef "Matches")] []

/-- `update_package_path` from `src/lua.rs`: set the
`__CHECKONAUT_FILE_PATH` global to the script's parent directory and execute
the chunk appending that directory to `package.path`.  The chunk fails if
`package.path` is not a string. -/
def updatePackagePath (env : GlobalEnv) (parentDir : String) : Except String GlobalEnv :=
  let env := setGlobal env "__CHECKONAUT_FILE_PATH" (.str parentDir)
  match getGlobal env "package.path" with
  | .str p =>
      .ok (setGlobal env "package.path"
        (.str (p ++ ";" ++ parentDir ++ "/?.lua;" ++ parentDir ++ "/?/init.lua")))
  | _ => .error "failed to update package.path in Lua"

/-- A script file as `SourceCode` in `src/lua.rs` holds it: its path, parent
directory, and the effect of executing its contents on the globals. -/
structure SourceCodeModel where
  path : String
  parent : String
  body : GlobalEnv → GlobalEnv

/-- The interpreter state `SourceCode::load_into` has produced right before
it executes the script body: the module search path is extended and the
`checkonaut` capability module is registered. -/
def loadIntoPreBodyEnv (env : GlobalEnv) (s : SourceCodeModel) : Except String GlobalEnv :=
  match updatePackagePath env s.parent with
  | .error e => .error e
  | .ok env => .ok (setGlobal env checkonautModuleKey checkonautModule)

/-- `SourceCode::load_into` from `src/lua.rs`: extend the search path,
register the capability module, then execute the script body. -/
def loadInto (env : GlobalEnv) (s : SourceCodeModel) : Except String GlobalEnv :=
  match loadIntoPreBodyEnv env s with
  | .error e => .error e
  | .ok env => .ok (s.body env)

/-- `FileTy` from `src/file.rs`. -/
inductive FileTy where
  | Test
  | Check
  | Data
deriving DecidableEq, Repr

/-- Byte-string suffix test (`[u8]::ends_with`); file names are modelled as
character lists over the byte alphabet. -/
def bytesEndsWith (name sfx : List Char) : Bool :=
  sfx.isSuffixOf name

/-- `FileTy::derive_from_byte_name` from `src/file.rs`: the `_test.lua`
suffix wins over `.lua`, which wins over the data extensions; all four
comparisons are exact byte comparisons. -/
def FileTy.deriveFromByteName (name : List Char) : Option FileTy :=
  if bytesEndsWith name "_test.lua".toList then some .Test
  else if bytesEndsWith name ".lua".toList then some .Check
  else if bytesEndsWith name ".json".toList then some .Data
  else if bytesEndsWith name ".yaml".toList then some .Data
  else if bytesEndsWith name ".yml".toList then some .Data
  else if bytesEndsWith name ".toml".toList then some .Data
  else none

/-- The observable behaviour of one test function when called with no
arguments (cf. the match in `test_file`, `src/test.rs`): it returns nil,
returns a value whose JSON rendering is `rendered`, raises a Lua runtime
error with message `msg`, or fails with any other mlua error kind. -/
inductive TestBehavior where
  | retNil
  | retVal (rendered : String)
  | errRuntime (msg : String)
  | errOther (msg : String)
deriving DecidableEq, Repr

/-- One global binding of the post-load test interpreter that holds a
function value, in the globals iteration order. -/
structure TestFn where
  name : String
  behavior : TestBehavior
deriving DecidableEq, Repr

/-- An ASCII apostrophe, as used by the source's failure format string. -/
def sQuote : String := String.singleton (Char.ofNat 39)

/-- The record `test_file` produces for a test function that failed with a
non-assertion error: the whole file's result list is replaced by this single
record. -/
def testFailedMsg (name msg : String) : String :=
  "Test function " ++ sQuote ++ name ++ sQuote ++ " failed: " ++ msg

/-- `String::starts_with("Test")` on a global's name. -/
def startsWithTest (name : String) : Bool :=
  "Test".toList.isPrefixOf name.toList

/-- Whether `needle` occurs as a contiguous run inside a character list. -/
def listHasInfix (needle : List Char) : List Char → Bool
  | [] => needle.isEmpty
  | c :: rest => needle.isPrefixOf (c :: rest) || listHasInfix needle rest

/-- `str::contains("assertion failed!")` on a runtime error message. -/
def isAssertionFailure (msg : String) : Bool :=
  listHasInfix "assertion failed!".toList msg.toList

/-- The globals loop of `test_file` in `src/test.rs`: function bindings whose
name starts with `Test` are called with no arguments; a nil return records
nothing, a non-nil return records `"<functionName>: <rendering>"`, a runtime
error containing `assertion failed!` records `"<functionName>: <message>"`,
and any other failure returns immediately with a single
`Test function <name> failed: <message>` record, discarding the results
accumulated so far. -/
def testFileGo : List TestFn → List String → List String
  | [], acc => acc
  | f :: rest, acc =>
      if startsWithTest f.name then
        match f.behavior with
        | .retNil => testFileGo rest acc
        | .retVal rendered => testFileGo rest (acc ++ [f.name ++ ": " ++ rendered])
        | .errRuntime msg =>
            if isAssertionFailure msg then testFileGo rest (acc ++ [f.name ++ ": " ++ msg])
            else [testFailedMsg f.name msg]
        | .errOther msg => [testFailedMsg f.name msg]
      else testFileGo rest acc

/-- `test_file` from `src/test.rs` for one test file: the outcome records of
its test functions.  The file name is a parameter of `test_file` but, in the
source, it is used only for the interpreter globals and diagnostics — no
outcome record mentions it. -/
def testFileModel (_fileName : String) (fns : List TestFn) : List String :=
  testFileGo fns []

/-- The interpreter constructed at the top of `test_file` in `src/test.rs`:
`Lua::new()`, the `_TEST_FILE` and `_TEST_DIR` globals, and the chunk that
appends the test file's directory to `package.path`. -/
def testFileInitEnv (defaultPath testPath parentDir : String) : GlobalEnv :=
  let env : GlobalEnv := [("package.path", LuaValue.str defaultPath)]
  let env := setGlobal env "_TEST_FILE" (.str testPath)
  let env := setGlobal env "_TEST_DIR" (.str parentDir)
  setGlobal env "package.path"
    (.str (defaultPath ++ ";" ++ parentDir ++ "/?.lua;" ++ parentDir ++ "/?/init.lua"))

/-- The test-file name filter of `Test::run` in `src/test.rs`:
`to_ascii_lowercase().ends_with("_test.lua")` on the file name. -/
def isTestFileName (fileName : String) : Bool :=
  bytesEndsWith (fileName.toList.map Char.toLower) "_test.lua".toList

/-- One discovered file as the `test` command consumes it: its name and the
test functions its post-load globals hold. -/
structure TestFileInput where
  fileName : String
  fns : List TestFn

/-- `Test::run` from `src/test.rs` after file discovery: keep the
`_test.lua` files, run `test_file` on each, drop the files with no failure
records, and fail exactly when some failure record remains.  (The source
sorts the remaining records by file before logging; the success flag does
not depend on that order.) -/
def testRunModel (files : List TestFileInput) : Except String Unit :=
  let selected := files.filter (fun f => isTestFileName f.fileName)
  let results := (selected.map (fun f => (f.fileName, testFileModel f.fileName f.fns))).filter
    (fun r => !r.2.isEmpty)
  if results.isEmpty then .ok () else .error "one or more tests failed"

/-- A check script whose body creates the global `leaked` and whose `Check`
function reports nothing. -/
def leakA : CheckScript :=
  ⟨"a.lua", fun env => setGlobal env "leaked" (.str "yes"), fun env _ => (env, .nil)⟩

/-- A check script whose body creates nothing and whose `Check` function
reports a finding exactly when the global `leaked` is set. -/
def spyB : CheckScript :=
  ⟨"b.lua", fun env => env,
   fun env _ => (env, if isNilV (getGlobal env "leaked") then .nil else .str "saw leak")⟩

/-- A check script with no body effect whose `Check` function returns nil. -/
def idCheck : CheckScript :=
  ⟨"id.lua", fun env => env, fun env _ => (env, .nil)⟩

/-- A check script whose body records whether the capability module was
registered when the body executed, and whose `Check` function reports the
recorded observation. -/
def moduleSpy : CheckScript :=
  ⟨"spy.lua",
   fun env => setGlobal env "module_seen"
     (if isNilV (getGlobal env checkonautModuleKey) then .str "absent" else .str "present"),
   fun env _ => (env, getGlobal env "module_seen")⟩

/-- The interpreter `check_file` builds for a concrete data file. -/
def demoEnv : GlobalEnv := checkFileInitEnv "LP" "/d/data.json" "/d"

/-- A concrete JSON data file whose single document is nil. -/
def demoDataFile : DataFileInput :=
  ⟨"/d/a.json", "/d", some "json".toList, ⟨.ok .nil, .error "not toml", []⟩⟩

/-- The interpreter state `load_into` produces before the body runs, for a
fresh interpreter whose `package.path` is `LP` and a script in `/s`. -/
def demoPreBodyEnv : GlobalEnv :=
  [("package.path", .str "LP;/s/?.lua;/s/?/init.lua"),
   ("__CHECKONAUT_FILE_PATH", .str "/s"),
   (checkonautModuleKey, checkonautModule)]

/-- A discovered file whose name does not carry the `_test.lua` suffix. -/
def demoNonTestFile : TestFileInput := ⟨"script.lua", []⟩

/-- The relation between a test function and an outcome record `test_file`
can produce for it: a non-nil return or an assertion failure is recorded as
the function name, a colon and the rendering or message; any other failure
is recorded with the `Test function ... failed` shape. -/
def recordedOutcome (f : TestFn) (s : String) : Prop :=
  (∃ r, f.behavior = .retVal r ∧ s = f.name ++ ": " ++ r)
  ∨ (∃ m, f.behavior = .errRuntime m ∧ isAssertionFailure m = true
      ∧ s = f.name ++ ": " ++ m)
  ∨ (∃ m, (f.behavior = .errRuntime m ∧ isAssertionFailure m = false
        ∨ f.behavior = .errOther m)
      ∧ s = testFailedMsg f.name m)

mutual

theorem flattenInternal_acc : ∀ (r : CheckResult) (acc : List CheckError) (inh : CheckSeverity),
    flattenInternal r acc inh = acc ++ flattenInternal r [] inh
  | .Nil, _, _ => by simp [flattenInternal]
  | .Error _ _, _, _ => by simp [flattenInternal]
  | .Many sev rs, acc, inh => by
      simp only [flattenInternal]
      exact flattenList_acc rs acc (sev.getD inh)

theorem flattenList_acc : ∀ (rs : List CheckResult) (acc : List CheckError) (sev : CheckSeverity),
    flattenList rs acc sev = acc ++ flattenList rs [] sev
  | [], _, _ => by simp [flattenList]
  | r :: rs, acc, sev => by
      simp only [flattenList]
      rw [flattenList_acc rs (flattenInternal r acc sev) sev,
        flattenInternal_acc r acc sev,
        flattenList_acc rs (flattenInternal r [] sev) sev]
      simp

end

theorem flattenList_cons (r : CheckResult) (rs : List CheckResult) (sev : CheckSeverity) :
    flattenList (r :: rs) [] sev = flattenInternal r [] sev ++ flattenList rs [] sev := by
  simp only [flattenList]
  rw [flattenList_acc rs (flattenInternal r [] sev) sev]

mutual

theorem flattenInternal_eq_spec : ∀ (r : CheckResult) (nearest : Option CheckSeverity),
    flattenInternal r [] (nearest.getD .Error) = specFlatten nearest r
  | .Nil, _ => by simp [flattenInternal, specFlatten]
  | .Error own msg, nearest => by
      cases own <;> cases nearest <;> simp [flattenInternal, specFlatten, Option.orElse]
  | .Many own rs, nearest => by
      have h := flattenList_eq_spec rs (own.orElse (fun _ => nearest))
      have hsev : (own.orElse (fun _ => nearest)).getD CheckSeverity.Error
          = own.getD (nearest.getD .Error) := by
        cases own <;> cases nearest <;> simp [Option.orElse]
      simp only [flattenInternal, specFlatten]
      rw [← hsev]
      exact h

theorem flattenList_eq_spec : ∀ (rs : List CheckResult) (nearest : Option CheckSeverity),
    flattenList rs [] (nearest.getD .Error) = specFlattenList nearest rs
  | [], _ => by simp [flattenList, specFlattenList]
  | r :: rs, nearest => by
      rw [flattenList_cons, specFlattenList,
        flattenInternal_eq_spec r nearest, flattenList_eq_spec rs nearest]

end

mutual

theorem specFlatten_messages : ∀ (r : CheckResult) (nearest : Option CheckSeverity),
    (specFlatten nearest r).map CheckError.error = leafMessages r
  | .Nil, _ => by simp [specFlatten, leafMessages]
  | .Error own msg, nearest => by simp [specFlatten, leafMessages]
  | .Many own rs, nearest => by
      simp only [specFlatten, leafMessages]
      exact specFlattenList_messages rs (own.orElse (fun _ => nearest))

theorem specFlattenList_messages : ∀ (rs : List CheckResult) (nearest : Option CheckSeverity),
    (specFlattenList nearest rs).map CheckError.error = leafMessagesList rs
  | [], _ => by simp [specFlattenList, leafMessagesList]
  | r :: rs, nearest => by
      simp only [specFlattenList, leafMessagesList, List.map_append]
      rw [specFlatten_messages r nearest, specFlattenList_messages rs nearest]

end

/-- C3: flattening a `CheckResult` tree (entered with inherited severity
`Error`) gives each leaf with unset severity the resolved severity of the
nearest enclosing group that has one set, defaulting to `Error` when no
enclosing severity is set, and preserves the leaf messages in order; every
finding carries a concrete severity by construction of `CheckError`. -/
theorem c3_flatten_severity_inheritance (r : CheckResult) :
    r.flatten = specFlatten none r
      ∧ r.flatten.map CheckError.error = leafMessages r := by
  have h : r.flatten = specFlatten none r := flattenInternal_eq_spec r none
  refine ⟨h, ?_⟩
  rw [h]
  exact specFlatten_messages r none

/-- C4: flattening `Group(severity, [A, B, C])` under any inherited severity
`s` equals the concatenation of flattening `Group(severity, [A, B])` and
`Group(severity, [C])` under the same `s`. -/
theorem c4_flatten_sibling_concat (sev : Option CheckSeverity) (A B C : CheckResult)
    (s : CheckSeverity) :
    flattenInternal (.Many sev [A, B, C]) [] s
      = flattenInternal (.Many sev [A, B]) [] s ++ flattenInternal (.Many sev [C]) [] s := by
  simp only [flattenInternal]
  rw [flattenList_cons, flattenList_cons, flattenList_cons, flattenList_cons,
    flattenList_cons]
  simp [flattenList]

/-- C2 counterexample: a structured table that carries
`severity = "warning"` but no `message` field decodes to a group whose
severity is unset, and its child leaf with unset severity flattens to an
`Error` finding at the root — not to the `Warning` the claim requires. -/
theorem c2_counterexample :
    fromLua (.table [("severity", .str "warning")] [.str "oops"])
        = .ok (.Many none [.Error none "oops"])
      ∧ (CheckResult.Many none [.Error none "oops"]).flatten = [⟨.Error, "oops"⟩]
      ∧ CheckSeverity.Error ≠ CheckSeverity.Warning :=
  ⟨rfl, rfl, by decide⟩

/-- C2 (amended): decoding a structured table without a `message` field
yields a Group whose severity is always unset — any `severity` field of such
a table is ignored — with children the recursively decoded sequence
elements. -/
theorem c2_messageless_table_severity_unset (entries : List (String × LuaValue))
    (seq : List LuaValue) (r : CheckResult)
    (hmsg : isNilV (luaGetField entries "message") = true)
    (hok : fromLua (.table entries seq) = .ok r) :
    ∃ results, fromLuaSeq seq = .ok results ∧ r = .Many none results := by
  rw [fromLua, hmsg] at hok
  simp only [if_true] at hok
  cases hseq : fromLuaSeq seq with
  | error e => rw [hseq] at hok; cases hok
  | ok results =>
      rw [hseq] at hok
      cases hok
      exact ⟨results, rfl, rfl⟩

/-- C2 witness: the amended theorem applied to the concrete severity-bearing
message-less table. -/
theorem c2_witness :
    isNilV (luaGetField [("severity", LuaValue.str "warning")] "message") = true
      ∧ ∃ results, fromLuaSeq [LuaValue.str "oops"] = .ok results
          ∧ CheckResult.Many none [.Error none "oops"] = .Many none results :=
  ⟨rfl, c2_messageless_table_severity_unset [("severity", LuaValue.str "warning")]
    [LuaValue.str "oops"] (.Many none [.Error none "oops"]) rfl rfl⟩

/-- C7 counterexample: `FileTy::derive_from_byte_name` compares data
extensions byte-exactly, so `a.JSON` is excluded while `a.json` is Data —
the claimed case-insensitive matching of data extensions fails. -/
theorem c7_counterexample :
    FileTy.deriveFromByteName "a.JSON".toList = none
      ∧ FileTy.deriveFromByteName "a.json".toList = some .Data :=
  ⟨rfl, rfl⟩

/-- C7 (amended): role classification yields exactly one of Test, Check,
Data, or excluded, derived solely from the name's suffix: the `_test.lua`
suffix wins over `.lua`, a plain `.lua` name is Check, and the data
extensions `json`, `yaml`, `yml`, `toml` match case-sensitively (exact
lowercase bytes); any other name is excluded. -/
theorem c7_classification (name : List Char) :
    (bytesEndsWith name "_test.lua".toList = true →
      FileTy.deriveFromByteName name = some .Test)
  ∧ (bytesEndsWith name "_test.lua".toList = false →
      bytesEndsWith name ".lua".toList = true →
      FileTy.deriveFromByteName name = some .Check)
  ∧ (bytesEndsWith name "_test.lua".toList = false →
      bytesEndsWith name ".lua".toList = false →
      (bytesEndsWith name ".json".toList || bytesEndsWith name ".yaml".toList
        || bytesEndsWith name ".yml".toList || bytesEndsWith name ".toml".toList) = true →
      FileTy.deriveFromByteName name = some .Data)
  ∧ (bytesEndsWith name "_test.lua".toList = false →
      bytesEndsWith name ".lua".toList = false →
      bytesEndsWith name ".json".toList = false →
      bytesEndsWith name ".yaml".toList = false →
      bytesEndsWith name ".yml".toList = false →
      bytesEndsWith name ".toml".toList = false →
      FileTy.deriveFromByteName name = none) := by
  refine ⟨?_, ?_, ?_, ?_⟩
  · intro h1
    unfold FileTy.deriveFromByteName
    rw [h1]
    simp
  · intro h1 h2
    unfold FileTy.deriveFromByteName
    rw [h1, h2]
    simp
  · intro h1 h2 h3
    unfold FileTy.deriveFromByteName
    rw [h1, h2]
    cases hj : bytesEndsWith name ".json".toList with
    | true => simp
    | false =>
        cases hya : bytesEndsWith name ".yaml".toList with
        | true => simp
        | false =>
            cases hym : bytesEndsWith name ".yml".toList with
            | true => simp
            | false =>
                cases ht : bytesEndsWith name ".toml".toList with
                | true => simp
                | false => rw [hj, hya, hym, ht] at h3; simp at h3
  · intro h1 h2 h3 h4 h5 h6
    unfold FileTy.deriveFromByteName
    rw [h1, h2, h3, h4, h5, h6]
    simp

/-- C7 witness: the amended classification applied to concrete names,
including the test-suffix-beats-script-suffix case. -/
theorem c7_witness :
    bytesEndsWith "x_test.lua".toList "_test.lua".toList = true
      ∧ FileTy.deriveFromByteName "x_test.lua".toList = some .Test :=
  ⟨by decide, (c7_classification "x_test.lua".toList).1 (by decide)⟩

theorem eqIC_disjoint (a b c : List Char) (h : eqIgnoreAsciiCase a b = true)
    (hbc : (b.map Char.toLower == c.map Char.toLower) = false) :
    eqIgnoreAsciiCase a c = false := by
  simp only [eqIgnoreAsciiCase] at h ⊢
  have hab : a.map Char.toLower = b.map Char.toLower := by simpa using h
  rw [hab]
  exact hbc

theorem loadYamlStream_all_ok (vs : List LuaValue) :
    loadYamlStream (vs.map .ok) = .ok vs := by
  induction vs with
  | nil => rfl
  | cons v vs ih => simp [loadYamlStream, ih]

theorem loadYamlStream_aborts (vs : List LuaValue) (m : String)
    (post : List (Except String LuaValue)) :
    loadYamlStream (vs.map .ok ++ .error m :: post)
      = .error ("failed to parse YAML document: " ++ m) := by
  induction vs with
  | nil => rfl
  | cons v vs ih => simp [loadYamlStream, ih]

/-- C8: document loading yields exactly one document for a JSON or TOML
extension (matched case-insensitively), one document per YAML stream entry
in source order, and a parse error in any YAML stream entry aborts the whole
file with no partial document list. -/
theorem c8_documents_per_format :
    (∀ e : List Char, eqIgnoreAsciiCase e "json".toList = true →
      ∀ (raw : RawParseOutcomes) (v : LuaValue), raw.json = .ok v →
        loadDocuments (some e) raw = .ok [v])
  ∧ (∀ e : List Char, eqIgnoreAsciiCase e "toml".toList = true →
      ∀ (raw : RawParseOutcomes) (v : LuaValue), raw.toml = .ok v →
        loadDocuments (some e) raw = .ok [v])
  ∧ (∀ e : List Char,
      (eqIgnoreAsciiCase e "yml".toList || eqIgnoreAsciiCase e "yaml".toList) = true →
      ∀ (raw : RawParseOutcomes) (vs : List LuaValue), raw.yaml = vs.map .ok →
        loadDocuments (some e) raw = .ok vs)
  ∧ (∀ e : List Char,
      (eqIgnoreAsciiCase e "yml".toList || eqIgnoreAsciiCase e "yaml".toList) = true →
      ∀ (raw : RawParseOutcomes) (vs : List LuaValue) (m : String)
        (post : List (Except String LuaValue)),
        raw.yaml = vs.map .ok ++ .error m :: post →
        loadDocuments (some e) raw = .error ("failed to parse YAML document: " ++ m)) := by
  have hyml : ∀ e : List Char,
      (eqIgnoreAsciiCase e "yml".toList || eqIgnoreAsciiCase e "yaml".toList) = true →
      eqIgnoreAsciiCase e "json".toList = false
        ∧ eqIgnoreAsciiCase e "toml".toList = false := by
    intro e he
    rcases Bool.or_eq_true_iff.mp he with h | h
    · exact ⟨eqIC_disjoint e "yml".toList "json".toList h (by decide),
        eqIC_disjoint e "yml".toList "toml".toList h (by decide)⟩
    · exact ⟨eqIC_disjoint e "yaml".toList "json".toList h (by decide),
        eqIC_disjoint e "yaml".toList "toml".toList h (by decide)⟩
  refine ⟨?_, ?_, ?_, ?_⟩
  · intro e he raw v hv
    unfold loadDocuments
    simp only [Option.elim]
    rw [he, hv]
    simp
  · intro e he raw v hv
    have hj : eqIgnoreAsciiCase e "json".toList = false :=
      eqIC_disjoint e "toml".toList "json".toList he (by decide)
    unfold loadDocuments
    simp only [Option.elim]
    rw [he, hj, hv]
    simp
  · intro e he raw vs hv
    obtain ⟨hj, ht⟩ := hyml e he
    unfold loadDocuments
    simp only [Option.elim]
    simp only [hj, ht, he, hv]
    simp [loadYamlStream_all_ok]
  · intro e he raw vs m post hv
    obtain ⟨hj, ht⟩ := hyml e he
    unfold loadDocuments
    simp only [Option.elim]
    simp only [hj, ht, he, hv]
    simp [loadYamlStream_aborts]

/-- C8 witness: a case-differing JSON extension yields exactly one document,
and a YAML stream whose second entry fails aborts the whole file. -/
theorem c8_witness :
    eqIgnoreAsciiCase "JSON".toList "json".toList = true
      ∧ loadDocuments (some "JSON".toList) ⟨.ok .nil, .error "t", []⟩ = .ok [.nil]
      ∧ ((eqIgnoreAsciiCase "yaml".toList "yml".toList
            || eqIgnoreAsciiCase "yaml".toList "yaml".toList) = true)
      ∧ loadDocuments (some "yaml".toList)
          ⟨.error "j", .error "t", [.ok .nil, .error "bad entry"]⟩
          = .error ("failed to parse YAML document: " ++ "bad entry") :=
  ⟨by decide,
   c8_documents_per_format.1 "JSON".toList (by decide) ⟨.ok .nil, .error "t", []⟩ .nil rfl,
   by decide,
   c8_documents_per_format.2.2.2 "yaml".toList (by decide)
     ⟨.error "j", .error "t", [.ok .nil, .error "bad entry"]⟩ [.nil] "bad entry" [] rfl⟩

/-- C10: a `test` run over files none of which carries the `_test.lua`
suffix succeeds, whereas a `check` run fails on an empty check set and on an
empty data set. -/
theorem c10_empty_test_set_succeeds :
    (∀ files : List TestFileInput,
      files.filter (fun f => isTestFileName f.fileName) = [] →
        testRunModel files = .ok ())
  ∧ (∀ (dp : String) (dataFiles : List DataFileInput),
      checkRunTop dp [] dataFiles = .error "no check files found to run")
  ∧ (∀ (dp : String) (c : CheckScript) (cs : List CheckScript),
      checkRunTop dp (c :: cs) [] = .error "no data files found to check") := by
  refine ⟨?_, ?_, ?_⟩
  · intro files h
    unfold testRunModel
    rw [h]
    rfl
  · intro dp dataFiles
    rfl
  · intro dp c cs
    rfl

/-- C10 witness: a run over one non-test file succeeds. -/
theorem c10_witness :
    [demoNonTestFile].filter (fun f => isTestFileName f.fileName) = []
      ∧ testRunModel [demoNonTestFile] = .ok () :=
  ⟨rfl, c10_empty_test_set_succeeds.1 [demoNonTestFile] rfl⟩

theorem evalDataFiles_isolated (dp : String) (checks : List CheckScript) :
    ∀ (pre post : List DataFileInput) (d : DataFileInput)
      (results : List (String × List (String × List CheckError))),
      evalDataFiles dp checks (pre ++ d :: post) = .ok results →
      ∃ rs, checkFileFull dp d checks = .ok rs
        ∧ results[pre.length]? = some (d.path, rs) := by
  intro pre
  induction pre with
  | nil =>
      intro post d results h
      rw [List.nil_append] at h
      simp only [evalDataFiles] at h
      cases hc : checkFileFull dp d checks with
      | error e => rw [hc] at h; simp at h
      | ok res =>
          rw [hc] at h
          cases hr : evalDataFiles dp checks post with
          | error e => rw [hr] at h; simp at h
          | ok rs =>
              rw [hr] at h
              have h' := Except.ok.inj h
              refine ⟨res, rfl, ?_⟩
              rw [← h']
              simp
  | cons p pre ih =>
      intro post d results h
      rw [List.cons_append] at h
      simp only [evalDataFiles] at h
      cases hc : checkFileFull dp p checks with
      | error e => rw [hc] at h; simp at h
      | ok r =>
          rw [hc] at h
          cases hr : evalDataFiles dp checks (pre ++ d :: post) with
          | error e => rw [hr] at h; simp at h
          | ok rs =>
              rw [hr] at h
              have h' := Except.ok.inj h
              obtain ⟨rs', hcf, hget⟩ := ih post d rs hr
              refine ⟨rs', hcf, ?_⟩
              rw [← h']
              simpa using hget

/-- C1 counterexample: within one data file the interpreter is shared across
check scripts.  Script `a.lua` only creates the global `leaked`; script
`b.lua` reports a finding exactly when it can see that global.  Run after
`a.lua` against the same data file, `b.lua` produces a finding it does not
produce alone — the global created by loading `a.lua` was visible while
`b.lua` was evaluated. -/
theorem c1_counterexample :
    runChecks demoEnv [LuaValue.nil] [leakA, spyB]
        = .ok [("b.lua", [⟨.Error, "saw leak"⟩])]
      ∧ runChecks demoEnv [LuaValue.nil] [spyB] = .ok [] :=
  ⟨rfl, rfl⟩

/-- C1 (amended): a fresh interpreter is constructed once per data file, not
per check script.  Across data files no state is shared: in a successful
run, each data file's entry equals its evaluation in isolation.  Within one
data file, all check scripts run in the same interpreter in sequence, so a
global binding created by loading one check script is visible while a later
check script of the same data file is loaded and called. -/
theorem c1_interpreter_per_data_file :
    (∀ (dp : String) (checks : List CheckScript) (pre post : List DataFileInput)
      (d : DataFileInput) (results : List (String × List (String × List CheckError))),
      evalDataFiles dp checks (pre ++ d :: post) = .ok results →
      ∃ rs, checkFileFull dp d checks = .ok rs
        ∧ results[pre.length]? = some (d.path, rs))
  ∧ runChecks demoEnv [LuaValue.nil] [leakA, spyB]
      = .ok [("b.lua", [⟨.Error, "saw leak"⟩])] :=
  ⟨fun dp checks => evalDataFiles_isolated dp checks, rfl⟩

/-- C1 witness: the cross-file-isolation part applied to a concrete
one-file run. -/
theorem c1_witness :
    evalDataFiles "LP" [] [demoDataFile] = .ok [("/d/a.json", [])]
      ∧ ∃ rs, checkFileFull "LP" demoDataFile [] = .ok rs
          ∧ ([("/d/a.json", ([] : List (String × List CheckError)))])[0]? = some ("/d/a.json", rs) :=
  ⟨rfl, c1_interpreter_per_data_file.1 "LP" [] [] [] demoDataFile
    [("/d/a.json", [])] rfl⟩

theorem performCheckGo_trace (c : CheckScript) :
    ∀ (docs : List LuaValue) (env : GlobalEnv) (errors : List CheckError)
      (trace : List (List LuaValue)) (env' : GlobalEnv) (errs : List CheckError)
      (tr : List (List LuaValue)),
      performCheckGo c env docs errors trace = .ok (env', errs, tr) →
      tr = trace ++ docs.map (fun d => [d]) := by
  intro docs
  induction docs with
  | nil =>
      intro env errors trace env' errs tr h
      simp only [performCheckGo] at h
      have h' := Except.ok.inj h
      have h'' := congrArg (fun p => p.2.2) h'
      simp only at h''
      simp [← h'']
  | cons doc rest ih =>
      intro env errors trace env' errs tr h
      simp only [performCheckGo] at h
      cases hf : fromLua (c.call env [doc]).2 with
      | error e => rw [hf] at h; simp at h
      | ok res =>
          rw [hf] at h
          have := ih (c.call env [doc]).1 (errors ++ res.flatten) (trace ++ [[doc]]) env' errs tr h
          rw [this]
          simp

/-- C5 counterexample: in `perform_check` the entry function is called with
the single-element argument list `[document]` — one argument, no context
value — contradicting the claimed two-argument `(document, context)`
invocation. -/
theorem c5_counterexample :
    performCheck demoEnv [LuaValue.nil] idCheck = .ok (demoEnv, [], [[LuaValue.nil]])
      ∧ List.length [LuaValue.nil] = 1
      ∧ (1 : Nat) ≠ 2 :=
  ⟨rfl, rfl, by decide⟩

/-- C5 (amended): for every (document, check-script) pair evaluated by the
check command, the entry function is called with exactly one argument — the
document; no context value carrying `check_file` and `document_file` paths
is passed.  (The per-file globals `_CHECK_FILE` and `_CHECK_DIR` name the
data file, not the check script.) -/
theorem c5_single_document_argument (env : GlobalEnv) (docs : List LuaValue)
    (c : CheckScript) (env' : GlobalEnv) (errs : List CheckError)
    (tr : List (List LuaValue))
    (h : performCheck env docs c = .ok (env', errs, tr)) :
    tr = docs.map (fun d => [d]) ∧ ∀ a ∈ tr, a.length = 1 := by
  have htr := performCheckGo_trace c docs (c.load env) [] [] env' errs tr h
  rw [List.nil_append] at htr
  refine ⟨htr, ?_⟩
  intro a ha
  rw [htr] at ha
  obtain ⟨d, _, hd⟩ := List.mem_map.mp ha
  rw [← hd]
  rfl

/-- C5 witness: a two-document evaluation makes exactly the two
single-argument calls. -/
theorem c5_witness :
    performCheck demoEnv [LuaValue.nil, LuaValue.str "x"] idCheck
        = .ok (demoEnv, [], [[LuaValue.nil], [LuaValue.str "x"]])
      ∧ [[LuaValue.nil], [LuaValue.str "x"]]
          = [LuaValue.nil, LuaValue.str "x"].map (fun d => [d]) :=
  ⟨rfl, (c5_single_document_argument demoEnv [LuaValue.nil, LuaValue.str "x"] idCheck
    demoEnv [] [[LuaValue.nil], [LuaValue.str "x"]] rfl).1⟩

theorem getGlobal_setGlobal_self : ∀ (env : GlobalEnv) (k : String) (v : LuaValue),
    getGlobal (setGlobal env k v) k = v
  | [], k, v => by simp [setGlobal, getGlobal]
  | (k', v') :: rest, k, v => by
      cases h : k' == k with
      | true => simp [setGlobal, h, getGlobal]
      | false =>
          simp only [setGlobal, h, Bool.false_eq_true, if_false]
          simp only [getGlobal, List.find?]
          rw [h]
          exact getGlobal_setGlobal_self rest k v

/-- C6 counterexample: in the check command's evaluation path no capability
module is ever registered.  A check script whose body records whether the
module binding was present while the body executed observes it absent. -/
theorem c6_counterexample :
    runChecks demoEnv [LuaValue.nil] [moduleSpy]
        = .ok [("spy.lua", [⟨.Error, "absent"⟩])]
      ∧ ("absent" : String) ≠ "present" :=
  ⟨rfl, by decide⟩

/-- C6 (amended): `SourceCode::load_into` registers the capability module —
a table holding exactly the two operations `ReadJSON` and `Matches` — before
the script body executes; but the interpreters the `check` and `test`
commands construct for their evaluations contain no capability module
binding at all. -/
theorem c6_capability_module_registration (env : GlobalEnv) (s : SourceCodeModel)
    (e : GlobalEnv) (h : loadIntoPreBodyEnv env s = .ok e) :
    getGlobal e checkonautModuleKey = checkonautModule
      ∧ checkonautModule
          = .table [("ReadJSON", .fnRef "ReadJSON"), ("Matches", .fnRef "Matches")] []
      ∧ (∀ dp p par, getGlobal (checkFileInitEnv dp p par) checkonautModuleKey = .nil)
      ∧ (∀ dp p par, getGlobal (testFileInitEnv dp p par) checkonautModuleKey = .nil) := by
  refine ⟨?_, rfl, fun dp p par => rfl, fun dp p par => rfl⟩
  unfold loadIntoPreBodyEnv at h
  cases hu : updatePackagePath env s.parent with
  | error e' => rw [hu] at h; simp at h
  | ok env2 =>
      rw [hu] at h
      have h' := Except.ok.inj h
      rw [← h']
      exact getGlobal_setGlobal_self env2 checkonautModuleKey checkonautModule

/-- C6 witness: the registration part applied to a concrete fresh
interpreter and script. -/
theorem c6_witness :
    loadIntoPreBodyEnv [("package.path", LuaValue.str "LP")]
        ⟨"/s/x.lua", "/s", fun env => env⟩ = .ok demoPreBodyEnv
      ∧ getGlobal demoPreBodyEnv checkonautModuleKey = checkonautModule :=
  ⟨rfl, (c6_capability_module_registration [("package.path", LuaValue.str "LP")]
    ⟨"/s/x.lua", "/s", fun env => env⟩ demoPreBodyEnv rfl).1⟩

theorem testFileGo_mem : ∀ (fns : List TestFn) (acc : List String) (s : String),
    s ∈ testFileGo fns acc →
    s ∈ acc ∨ ∃ f, f ∈ fns ∧ startsWithTest f.name = true ∧ recordedOutcome f s
  | [], _, s => fun h => by
      simp only [testFileGo] at h
      exact .inl h
  | ⟨nm, bh⟩ :: rest, acc, s => fun h => by
      cases hst : startsWithTest nm with
      | false =>
          simp only [testFileGo, hst, Bool.false_eq_true, if_false] at h
          rcases testFileGo_mem rest acc s h with hl | ⟨g, hg, hsw, hro⟩
          · exact .inl hl
          · exact .inr ⟨g, List.mem_cons_of_mem _ hg, hsw, hro⟩
      | true =>
          simp only [testFileGo, hst, if_true] at h
          cases bh with
          | retNil =>
              rcases testFileGo_mem rest acc s h with hl | ⟨g, hg, hsw, hro⟩
              · exact .inl hl
              · exact .inr ⟨g, List.mem_cons_of_mem _ hg, hsw, hro⟩
          | retVal r =>
              rcases testFileGo_mem rest (acc ++ [nm ++ ": " ++ r]) s h
                with hl | ⟨g, hg, hsw, hro⟩
              · rcases List.mem_append.mp hl with hin | hone
                · exact .inl hin
                · have hs : s = nm ++ ": " ++ r := by simpa using hone
                  exact .inr ⟨⟨nm, .retVal r⟩, List.mem_cons_self _ _, hst,
                    .inl ⟨r, rfl, hs⟩⟩
              · exact .inr ⟨g, List.mem_cons_of_mem _ hg, hsw, hro⟩
          | errRuntime m =>
              cases ha : isAssertionFailure m with
              | true =>
                  simp only [ha, if_true] at h
                  rcases testFileGo_mem rest (acc ++ [nm ++ ": " ++ m]) s h
                    with hl | ⟨g, hg, hsw, hro⟩
                  · rcases List.mem_append.mp hl with hin | hone
                    · exact .inl hin
                    · have hs : s = nm ++ ": " ++ m := by simpa using hone
                      exact .inr ⟨⟨nm, .errRuntime m⟩, List.mem_cons_self _ _, hst,
                        .inr (.inl ⟨m, rfl, ha, hs⟩)⟩
                  · exact .inr ⟨g, List.mem_cons_of_mem _ hg, hsw, hro⟩
              | false =>
                  simp only [ha, Bool.false_eq_true, if_false] at h
                  have hs : s = testFailedMsg nm m := by simpa using h
                  exact .inr ⟨⟨nm, .errRuntime m⟩, List.mem_cons_self _ _, hst,
                    .inr (.inr ⟨m, .inl ⟨rfl, ha⟩, hs⟩)⟩
          | errOther m =>
              have hs : s = testFailedMsg nm m := by simpa using h
              exact .inr ⟨⟨nm, .errOther m⟩, List.mem_cons_self _ _, hst,
                .inr (.inr ⟨m, .inr rfl, hs⟩)⟩

/-- C9 counterexample: a test function returning the value rendered `1`
inside file `script_test.lua` is recorded as `TestFoo: 1` — without the
claimed `<fileName>/` leader. -/
theorem c9_counterexample :
    testFileModel "script_test.lua" [⟨"TestFoo", .retVal "1"⟩] = ["TestFoo: 1"]
      ∧ ("TestFoo: 1" : String) ≠ "script_test.lua/TestFoo: 1" :=
  ⟨rfl, by decide⟩

/-- C9 (amended): every outcome record of a test file belongs to a
discovered `Test`-named function and is formatted as
`<functionName>: <rendering of value>` for a non-nil return,
`<functionName>: <message>` for an assertion failure, or
`Test function <name> failed: <message>` for any other failure — the file
name never appears inside the record (the test runner logs the file
separately). -/
theorem c9_outcome_format (fileName : String) (fns : List TestFn) (s : String)
    (h : s ∈ testFileModel fileName fns) :
    ∃ f, f ∈ fns ∧ startsWithTest f.name = true ∧ recordedOutcome f s := by
  rcases testFileGo_mem fns [] s h with hl | hr
  · simp at hl
  · exact hr

/-- C9 witness: the amended format theorem applied to a concrete recorded
outcome. -/
theorem c9_witness :
    (("TestBar: 2" : String) ∈ testFileModel "b_test.lua" [⟨"TestBar", .retVal "2"⟩])
      ∧ ∃ f, f ∈ [(⟨"TestBar", .retVal "2"⟩ : TestFn)]
          ∧ startsWithTest f.name = true ∧ recordedOutcome f "TestBar: 2" :=
  ⟨by decide,
   c9_outcome_format "b_test.lua" [⟨"TestBar", .retVal "2"⟩] "TestBar: 2" (by decide)⟩
